import Mathlib

/-!
Verification of the `TextDisplay` typewriter text box
(`src/roadtohack.js/textbox.js`) against its natural-language specification.

The JavaScript component is embedded shallowly:

* a DOM `<span class="char">` becomes a `DisplayUnit` record (its character,
  its `visible` class, the `hidden` property set by the continue handler, and
  the two ellipsis decoration classes);
* `String.prototype.trim` / `split('')` become `trimChars` on `List Char`;
* the generator `letterGenerator` becomes an explicit `cursor : Nat` over the
  unit list (the generator is re-read through `this.letters` on every tick, so
  the cursor and the unit list are instance-level shared state);
* each `window.setInterval` call becomes a `TimerState` entry (the interval id
  together with the closure variables `index` and `lookForWhitespaceChar`);
  `clearInterval` removes the entry;
* one interval callback execution (`showLetters`, lines 157-176) becomes
  `fireTimer`; the unguarded `previousElementSibling` / `nextElementSibling`
  accesses, which throw a `TypeError` on `null`, become `Except.error`.
-/

namespace Textbox

/-- One `<span class="char">` element: its character, whether the `visible`
class is present, whether the `hidden` property was set by the continue
handler, and the two ellipsis decoration classes. -/
structure DisplayUnit where
  char : Char
  visible : Bool
  hiddenAttr : Bool
  ellipsisBefore : Bool
  ellipsisAfter : Bool
deriving DecidableEq

/-- A freshly created span (`<span class="char">${char}</span>`): not visible,
not hidden, no decorations. -/
def mkUnit (c : Char) : DisplayUnit :=
  ⟨c, false, false, false, false⟩

/-- Drop leading whitespace characters; one pass of JavaScript `trim()`. -/
def dropWs : List Char → List Char
  | [] => []
  | c :: cs => if c.isWhitespace then dropWs cs else c :: cs

/-- JavaScript `String.prototype.trim`: drop leading whitespace, then drop
trailing whitespace (implemented by reversing, dropping leading, reversing). -/
def trimChars (l : List Char) : List Char :=
  (dropWs ((dropWs l).reverse)).reverse

/-- Segmentation performed by `attributeChangedCallback` lines 192-197:
`newValue.trim().split('').map(char => span)`. -/
def segment (rawText : String) : List DisplayUnit :=
  (trimChars rawText.data).map mkUnit

/-- The character content of a unit list (what `trim`/whitespace tests see). -/
def charsOf (us : List DisplayUnit) : List Char :=
  us.map (·.char)

/-- Line 168: `!letter.value.textContent.trim()` — the span's single character
trims to the empty string exactly when it is whitespace. -/
def isWsUnit (u : DisplayUnit) : Bool :=
  u.char.isWhitespace

/-- One live `setInterval` registration: its interval id and the closure
variables of `showLetters` (`index`, initially 1, and
`lookForWhitespaceChar`, initially false). -/
structure TimerState where
  id : Nat
  index : Nat
  armed : Bool
deriving DecidableEq

/-- The whole state of one `TextDisplay` instance:
the spans currently in the text box (`units`), the shared generator position
(`cursor`), the list of live intervals (`timers`) with a fresh-id counter,
the continue button's label and `hidden` property, the text box's `hidden`
property and `data-complete` attribute, and the accessibility mirror's
`textContent`. -/
structure DisplayState where
  units : List DisplayUnit
  cursor : Nat
  timers : List TimerState
  nextTimerId : Nat
  continueLabel : String
  continueHidden : Bool
  textBoxHidden : Bool
  dataComplete : Bool
  accessibleText : String
deriving DecidableEq

/-- The state after the constructor runs: empty box, no timers, button hidden
with the in-progress label, text box hidden, no completion marker. -/
def initState : DisplayState :=
  { units := []
    cursor := 0
    timers := []
    nextTimerId := 0
    continueLabel := "Continue…"
    continueHidden := true
    textBoxHidden := true
    dataComplete := false
    accessibleText := "" }

/-- `showLetters` (lines 153-157): registers a fresh interval whose closure
starts at `index = 1`, `lookForWhitespaceChar = false`.  It does NOT cancel
any interval already running. -/
def showLetters (s : DisplayState) : DisplayState :=
  { s with
    timers := s.timers ++ [⟨s.nextTimerId, 1, false⟩]
    nextTimerId := s.nextTimerId + 1 }

/-- `attributeChangedCallback` (lines 187-199), the `setText` entry point:
a falsy (empty) value is a no-op; otherwise set the accessibility mirror to
the raw value, reset the button label, unhide the text box, re-segment the
trimmed value into fresh spans, build a fresh generator (cursor 0) and start
a reveal cycle. -/
def attributeChangedCallback (newValue : String) (s : DisplayState) : DisplayState :=
  if newValue = "" then s
  else
    showLetters
      { s with
        accessibleText := newValue
        continueLabel := "Continue…"
        textBoxHidden := false
        units := segment newValue
        cursor := 0 }

/-- Apply `f` to the unit at position `i`, if any (a `classList.add` or a
`hidden` assignment on one span). -/
def modifyAt (f : DisplayUnit → DisplayUnit) : List DisplayUnit → Nat → List DisplayUnit
  | [], _ => []
  | u :: us, 0 => f u :: us
  | u :: us, n + 1 => u :: modifyAt f us n

/-- `clearInterval(intervalID)`: drop the interval with that id. -/
def removeTimer (ts : List TimerState) (tid : Nat) : List TimerState :=
  ts.filter (fun t => t.id ≠ tid)

/-- Store the mutated closure variables of interval `tid` back
(`index`, `lookForWhitespaceChar`). -/
def updateTimer (ts : List TimerState) (tid idx : Nat) (armed : Bool) : List TimerState :=
  ts.map (fun t => if t.id = tid then ⟨t.id, idx, armed⟩ else t)

/-- The continue handler's `Array.from(...querySelectorAll('.visible')).map(item
=> item.hidden = true)`: set the `hidden` property on every span carrying the
`visible` class. -/
def hideVisible (us : List DisplayUnit) : List DisplayUnit :=
  us.map (fun u => if u.visible then { u with hiddenAttr := true } else u)

/-- One execution of the interval callback of `showLetters` (lines 157-176)
for the interval `t`:

* `this.letters.next()` is `units.get? cursor`; `done` (lines 159-163) sets
  the terminal label, shows the button, sets `data-complete`, clears this
  interval;
* otherwise (lines 165-167) `lookForWhitespaceChar` is armed when
  `index % 100 === 0`, and the span is unconditionally given the `visible`
  class — before the whitespace test;
* the page-break branch (lines 168-173) clears this interval, then decorates
  `previousElementSibling` and `nextElementSibling`; either access throws
  (`Except.error`) when the sibling is missing; then the button is shown and
  `index` is not incremented;
* otherwise `index++` and the closure variables are stored back. -/
def fireTimer (t : TimerState) (s : DisplayState) : Except Unit DisplayState :=
  match s.units.get? s.cursor with
  | none =>
      Except.ok
        { s with
          continueLabel := "Done"
          continueHidden := false
          dataComplete := true
          timers := removeTimer s.timers t.id }
  | some u =>
      let p := s.cursor
      let armed := t.armed || decide (t.index % 100 = 0)
      let us1 := modifyAt (fun v => { v with visible := true }) s.units p
      if armed && isWsUnit u then
        let ts1 := removeTimer s.timers t.id
        if p = 0 then Except.error ()
        else
          let us2 := modifyAt (fun v => { v with ellipsisAfter := true }) us1 (p - 1)
          if p + 1 < s.units.length then
            let us3 := modifyAt (fun v => { v with ellipsisBefore := true }) us2 (p + 1)
            Except.ok
              { s with
                cursor := p + 1
                units := us3
                timers := ts1
                continueHidden := false }
          else Except.error ()
      else
        Except.ok
          { s with
            cursor := p + 1
            units := us1
            timers := updateTimer s.timers t.id (t.index + 1) armed }

/-- The `pointerup` handler on the continue button (lines 113-124): with
`data-complete` set, hide the button and the box and clear the marker
(dismiss); otherwise set `hidden` on every `.visible` span, hide the button
and start a new reveal cycle from the current cursor. -/
def continueHandler (s : DisplayState) : DisplayState :=
  if s.dataComplete then
    { s with continueHidden := true, textBoxHidden := true, dataComplete := false }
  else
    showLetters { s with units := hideVisible s.units, continueHidden := true }

/-- An externally observable event: a `text` attribute assignment, the firing
of the `i`-th live interval, or a click on the continue button. -/
inductive Ev where
  | setT (t : String)
  | tick (i : Nat)
  | click
deriving DecidableEq

/-- Dispatch one event.  A `tick i` with no `i`-th live interval is a no-op
(no such callback is scheduled). -/
def stepEv (s : DisplayState) : Ev → Except Unit DisplayState
  | .setT t => Except.ok (attributeChangedCallback t s)
  | .tick i =>
      match s.timers.get? i with
      | some t => fireTimer t s
      | none => Except.ok s
  | .click => Except.ok (continueHandler s)

/-- Run a sequence of events, stopping at the first thrown exception. -/
def runEvents (s : DisplayState) : List Ev → Except Unit DisplayState
  | [] => Except.ok s
  | e :: es =>
      match stepEv s e with
      | Except.ok s' => runEvents s' es
      | Except.error x => Except.error x

/-- `n` firings of the first live interval (deterministic driver for
single-timer scenarios). -/
def runTicks (s : DisplayState) (n : Nat) : Except Unit DisplayState :=
  runEvents s (List.replicate n (Ev.tick 0))

/-- Observe the `visible` class of span `i` of an execution result. -/
def visibleAt (r : Except Unit DisplayState) (i : Nat) : Option Bool :=
  match r with
  | Except.ok s => (s.units.get? i).map (·.visible)
  | Except.error _ => none

/-- Observe the character of span `i` of an execution result. -/
def charAt (r : Except Unit DisplayState) (i : Nat) : Option Char :=
  match r with
  | Except.ok s => (s.units.get? i).map (·.char)
  | Except.error _ => none

/-- Observe the number of live intervals of an execution result. -/
def timersCount (r : Except Unit DisplayState) : Option Nat :=
  match r with
  | Except.ok s => some s.timers.length
  | Except.error _ => none

/-- Observe the `data-complete` marker of an execution result. -/
def completeOf (r : Except Unit DisplayState) : Option Bool :=
  match r with
  | Except.ok s => some s.dataComplete
  | Except.error _ => none

/-- Observe the continue button's label of an execution result. -/
def labelOf (r : Except Unit DisplayState) : Option String :=
  match r with
  | Except.ok s => some s.continueLabel
  | Except.error _ => none

/-- Observe the accessibility mirror of an execution result. -/
def accTextOf (r : Except Unit DisplayState) : Option String :=
  match r with
  | Except.ok s => some s.accessibleText
  | Except.error _ => none

/-- Observe the continue button's `hidden` property of an execution result. -/
def continueHiddenOf (r : Except Unit DisplayState) : Option Bool :=
  match r with
  | Except.ok s => some s.continueHidden
  | Except.error _ => none

/-- Number of spans that are actually displayed: `visible` class present and
`hidden` property not set. -/
def visCount (r : Except Unit DisplayState) : Option Nat :=
  match r with
  | Except.ok s => some ((s.units.filter (fun u => u.visible && !u.hiddenAttr)).length)
  | Except.error _ => none

theorem dropWs_head_not_ws : ∀ {l : List Char} {c : Char} {cs : List Char},
    dropWs l = c :: cs → c.isWhitespace = false := by
  intro l
  induction l with
  | nil => intro c cs h; simp [dropWs] at h
  | cons a as ih =>
      intro c cs h
      by_cases hw : a.isWhitespace
      · rw [dropWs, if_pos hw] at h; exact ih h
      · rw [dropWs, if_neg hw] at h
        cases h; simpa using hw

theorem dropWs_ws_front : ∀ (l : List Char),
    ∃ w, (∀ c ∈ w, c.isWhitespace = true) ∧ l = w ++ dropWs l := by
  intro l
  induction l with
  | nil => exact ⟨[], by simp, by simp [dropWs]⟩
  | cons a as ih =>
      by_cases hw : a.isWhitespace
      · obtain ⟨w, hws, heq⟩ := ih
        refine ⟨a :: w, ?_, ?_⟩
        · intro c hc
          rcases List.mem_cons.mp hc with h | h
          · subst h; exact hw
          · exact hws c h
        · rw [dropWs, if_pos hw]; simpa using heq
      · exact ⟨[], by simp, by rw [dropWs, if_neg hw]; rfl⟩

theorem dropWs_getLast? : ∀ (l : List Char), dropWs l ≠ [] →
    (dropWs l).getLast? = l.getLast? := by
  intro l
  induction l with
  | nil => intro h; simp [dropWs] at h
  | cons a as ih =>
      intro h
      by_cases hw : a.isWhitespace
      · rw [dropWs, if_pos hw] at h ⊢
        have has : as ≠ [] := by
          intro hnil; rw [hnil] at h; simp [dropWs] at h
        obtain ⟨b, bs, hbs⟩ := List.exists_cons_of_ne_nil has
        rw [ih h, hbs, List.getLast?_cons_cons]
      · rw [dropWs, if_neg hw]

theorem trim_head?_not_ws {l : List Char} {c : Char} :
    (trimChars l).head? = some c → c.isWhitespace = false := by
  intro h
  rw [trimChars, List.head?_reverse] at h
  set m := dropWs l with hm
  have hne : dropWs m.reverse ≠ [] := by
    intro hnil; rw [hnil] at h; simp at h
  rw [dropWs_getLast? _ hne, List.getLast?_reverse] at h
  obtain ⟨d, ds, hds⟩ : ∃ d ds, m = d :: ds := by
    cases hmm : m with
    | nil => rw [hmm] at h; simp at h
    | cons d ds => exact ⟨d, ds, rfl⟩
  rw [hds] at h
  simp at h
  subst h
  exact dropWs_head_not_ws (hm.symm.trans hds)

theorem trim_getLast?_not_ws {l : List Char} {c : Char} :
    (trimChars l).getLast? = some c → c.isWhitespace = false := by
  intro h
  rw [trimChars, List.getLast?_reverse] at h
  cases hd : dropWs (dropWs l).reverse with
  | nil => rw [hd] at h; simp at h
  | cons d ds =>
      rw [hd] at h
      simp at h
      subst h
      exact dropWs_head_not_ws hd

def wsSafeC (cs : List Char) : Prop :=
  ∀ i c, cs.get? i = some c → c.isWhitespace = true → 0 < i ∧ i + 1 < cs.length

theorem get?_zero_head? {α : Type} (l : List α) : l.get? 0 = l.head? := by
  cases l <;> rfl

theorem wsSafeC_trim (l : List Char) : wsSafeC (trimChars l) := by
  intro i c hget hws
  have hlt : i < (trimChars l).length := (List.get?_eq_some.mp hget).1
  constructor
  · rcases Nat.eq_zero_or_pos i with h0 | hpos
    · exfalso
      rw [h0, get?_zero_head?] at hget
      have := trim_head?_not_ws hget
      rw [this] at hws; exact Bool.noConfusion hws
    · exact hpos
  · rcases Nat.lt_or_ge (i + 1) (trimChars l).length with h | h
    · exact h
    · exfalso
      have heq : i + 1 = (trimChars l).length := le_antisymm hlt h
      have hgl : (trimChars l).get? i = (trimChars l).getLast? := by
        rw [List.getLast?_eq_get?]
        congr 1
        omega
      rw [hgl] at hget
      have := trim_getLast?_not_ws hget
      rw [this] at hws; exact Bool.noConfusion hws

theorem charsOf_map_char {f : DisplayUnit → DisplayUnit}
    (hf : ∀ u, (f u).char = u.char) (us : List DisplayUnit) :
    charsOf (us.map f) = charsOf us := by
  induction us with
  | nil => rfl
  | cons u us ih =>
      simp only [charsOf, List.map_cons] at ih ⊢
      rw [hf u, ih]

theorem charsOf_modifyAt {f : DisplayUnit → DisplayUnit}
    (hf : ∀ u, (f u).char = u.char) :
    ∀ (us : List DisplayUnit) (i : Nat), charsOf (modifyAt f us i) = charsOf us := by
  intro us
  induction us with
  | nil => intro i; rfl
  | cons u us ih =>
      intro i
      cases i with
      | zero => simp only [modifyAt, charsOf, List.map_cons, hf u]
      | succ n =>
          simp only [modifyAt, charsOf, List.map_cons] at ih ⊢
          rw [ih n]

theorem charsOf_setVis (us : List DisplayUnit) (i : Nat) :
    charsOf (modifyAt (fun v => { v with visible := true }) us i) = charsOf us := by
  apply charsOf_modifyAt
  intro u
  rfl

theorem charsOf_setEA (us : List DisplayUnit) (i : Nat) :
    charsOf (modifyAt (fun v => { v with ellipsisAfter := true }) us i) = charsOf us := by
  apply charsOf_modifyAt
  intro u
  rfl

theorem charsOf_setEB (us : List DisplayUnit) (i : Nat) :
    charsOf (modifyAt (fun v => { v with ellipsisBefore := true }) us i) = charsOf us := by
  apply charsOf_modifyAt
  intro u
  rfl

theorem charsOf_hideVisible (us : List DisplayUnit) :
    charsOf (hideVisible us) = charsOf us := by
  apply charsOf_map_char
  intro u
  by_cases h : u.visible <;> simp [h]

theorem charsOf_segment (t : String) : charsOf (Textbox.segment t) = trimChars t.data := by
  rw [Textbox.segment, charsOf, List.map_map]
  have hid : ∀ (cs : List Char), cs.map ((fun u : DisplayUnit => u.char) ∘ mkUnit) = cs := by
    intro cs
    induction cs with
    | nil => rfl
    | cons c cs ih => rw [List.map_cons, ih]; rfl
  exact hid _

theorem fireTimer_ok (t : TimerState) (s : DisplayState)
    (hs : wsSafeC (charsOf s.units)) :
    ∃ s', fireTimer t s = Except.ok s' ∧ wsSafeC (charsOf s'.units) := by
  unfold fireTimer
  cases hu : s.units.get? s.cursor with
  | none => exact ⟨_, rfl, hs⟩
  | some u =>
      dsimp only
      by_cases hb : ((t.armed || decide (t.index % 100 = 0)) && isWsUnit u) = true
      · rw [if_pos hb]
        have hws : u.char.isWhitespace = true := by
          cases hw : isWsUnit u with
          | false => rw [hw, Bool.and_false] at hb; exact Bool.noConfusion hb
          | true => simpa [isWsUnit] using hw
        have hcget : (charsOf s.units).get? s.cursor = some u.char := by
          rw [charsOf, List.get?_map, hu]; rfl
        obtain ⟨hpos, hlt⟩ := hs s.cursor u.char hcget hws
        have hlen : (charsOf s.units).length = s.units.length := List.length_map _ _
        rw [if_neg (Nat.pos_iff_ne_zero.mp hpos)]
        rw [if_pos (by rw [hlen] at hlt; exact hlt)]
        refine ⟨_, rfl, ?_⟩
        rw [charsOf_setEB, charsOf_setEA, charsOf_setVis]
        exact hs
      · rw [if_neg hb]
        refine ⟨_, rfl, ?_⟩
        rw [charsOf_setVis]
        exact hs

theorem stepEv_ok (s : DisplayState) (e : Ev)
    (hs : wsSafeC (charsOf s.units)) :
    ∃ s', stepEv s e = Except.ok s' ∧ wsSafeC (charsOf s'.units) := by
  cases e with
  | setT t =>
      refine ⟨_, rfl, ?_⟩
      unfold attributeChangedCallback
      by_cases ht : t = ""
      · rw [if_pos ht]; exact hs
      · rw [if_neg ht]
        show wsSafeC (charsOf (Textbox.segment t))
        rw [charsOf_segment]
        exact wsSafeC_trim _
  | tick i =>
      simp only [stepEv]
      cases hti : s.timers.get? i with
      | none => exact ⟨_, rfl, hs⟩
      | some t => exact fireTimer_ok t s hs
  | click =>
      refine ⟨_, rfl, ?_⟩
      unfold continueHandler
      by_cases hc : s.dataComplete
      · simp only [if_pos hc]; exact hs
      · simp only [if_neg hc]
        show wsSafeC (charsOf (hideVisible s.units))
        rw [charsOf_hideVisible]
        exact hs

theorem runEvents_ok : ∀ (evs : List Ev) (s : DisplayState),
    wsSafeC (charsOf s.units) →
    ∃ s', runEvents s evs = Except.ok s' ∧ wsSafeC (charsOf s'.units) := by
  intro evs
  induction evs with
  | nil => intro s hs; exact ⟨s, rfl, hs⟩
  | cons e es ih =>
      intro s hs
      obtain ⟨s1, h1, hs1⟩ := stepEv_ok s e hs
      obtain ⟨s2, h2, hs2⟩ := ih s1 hs1
      refine ⟨s2, ?_, hs2⟩
      rw [runEvents, h1]
      exact h2

theorem modifyAt_get?_eq {f : DisplayUnit → DisplayUnit} :
    ∀ (us : List DisplayUnit) (i : Nat) (u : DisplayUnit),
      us.get? i = some u → (modifyAt f us i).get? i = some (f u) := by
  intro us
  induction us with
  | nil => intro i u h; simp at h
  | cons v vs ih =>
      intro i u h
      cases i with
      | zero => cases h; rfl
      | succ n => exact ih n u h

theorem modifyAt_get?_ne {f : DisplayUnit → DisplayUnit} :
    ∀ (us : List DisplayUnit) (i j : Nat), i ≠ j →
      (modifyAt f us i).get? j = us.get? j := by
  intro us
  induction us with
  | nil => intro i j _; cases i <;> rfl
  | cons v vs ih =>
      intro i j hij
      cases i with
      | zero =>
          cases j with
          | zero => exact absurd rfl hij
          | succ m => rfl
      | succ n =>
          cases j with
          | zero => rfl
          | succ m => exact ih n m (fun h => hij (by rw [h]))

theorem trim_decomp (l : List Char) :
    ∃ w1 w2, (∀ c ∈ w1, c.isWhitespace = true) ∧ (∀ c ∈ w2, c.isWhitespace = true)
      ∧ l = w1 ++ trimChars l ++ w2 := by
  obtain ⟨w, hw, hl⟩ := dropWs_ws_front l
  obtain ⟨w2, hw2, hm⟩ := dropWs_ws_front ((dropWs l).reverse)
  refine ⟨w, w2.reverse, hw, ?_, ?_⟩
  · intro c hc
    exact hw2 c (List.mem_reverse.mp hc)
  · have hrev : dropWs l = (trimChars l) ++ w2.reverse := by
      have := congrArg List.reverse hm
      simpa [trimChars, List.reverse_append] using this
    rw [List.append_assoc, ← hrev]
    exact hl

def str99 : String := String.mk (List.replicate 99 'a' ++ ' ' :: ['b'])

set_option maxRecDepth 20000 in
/-- C1 counterexample: for the 101-character input with a space at position 99,
the tick that resolves the page break (tick 100) leaves the whitespace unit at
position 99 carrying the `visible` class — refuting "that whitespace unit is
not revealed (it never becomes visible) ... marks no unit visible".  The same
run shows the break did resolve on that tick: the timer is stopped (no live
intervals) and the continue affordance is shown. -/
theorem c1_ws_unit_made_visible_cex :
    charAt (runTicks (attributeChangedCallback str99 initState) 100) 99 = some ' '
    ∧ visibleAt (runTicks (attributeChangedCallback str99 initState) 100) 99 = some true
    ∧ timersCount (runTicks (attributeChangedCallback str99 initState) 100) = some 0
    ∧ continueHiddenOf (runTicks (attributeChangedCallback str99 initState) 100) = some false := by
  refine ⟨?_, ?_, ?_, ?_⟩ <;> decide

/-- C1 amended: on the tick that resolves a page break (scanning armed, unit
under the cursor whitespace-only, both neighbours present), the whitespace
unit IS marked visible (line 167 runs before the whitespace test); the
preceding unit is decorated with ellipsis-after, the following unit with
ellipsis-before, the interval is cleared, the continue affordance is shown,
and the cursor has moved past the whitespace unit, so it is never revealed
again in a later cycle. -/
theorem c1_page_break_tick (t : TimerState) (s : DisplayState) (u : DisplayUnit)
    (hu : s.units.get? s.cursor = some u)
    (harm : (t.armed || decide (t.index % 100 = 0)) = true)
    (hws : isWsUnit u = true)
    (h0 : s.cursor ≠ 0)
    (hlt : s.cursor + 1 < s.units.length) :
    ∃ s', fireTimer t s = Except.ok s'
      ∧ s'.units.get? s.cursor = some { u with visible := true }
      ∧ (∀ v, s.units.get? (s.cursor - 1) = some v →
          s'.units.get? (s.cursor - 1) = some { v with ellipsisAfter := true })
      ∧ (∀ v, s.units.get? (s.cursor + 1) = some v →
          s'.units.get? (s.cursor + 1) = some { v with ellipsisBefore := true })
      ∧ s'.timers = removeTimer s.timers t.id
      ∧ s'.continueHidden = false
      ∧ s'.cursor = s.cursor + 1 := by
  have hcond : ((t.armed || decide (t.index % 100 = 0)) && isWsUnit u) = true := by
    rw [harm, hws]; rfl
  refine ⟨{ s with
      cursor := s.cursor + 1
      units := modifyAt (fun v => { v with ellipsisBefore := true })
        (modifyAt (fun v => { v with ellipsisAfter := true })
          (modifyAt (fun v => { v with visible := true }) s.units s.cursor)
          (s.cursor - 1))
        (s.cursor + 1)
      timers := removeTimer s.timers t.id
      continueHidden := false }, ?_, ?_, ?_, ?_, rfl, rfl, rfl⟩
  · unfold fireTimer
    rw [hu]
    dsimp only
    rw [if_pos hcond, if_neg h0, if_pos hlt]
  · show (modifyAt _ (modifyAt _ (modifyAt _ s.units s.cursor) (s.cursor - 1)) (s.cursor + 1)).get? s.cursor
        = some { u with visible := true }
    rw [modifyAt_get?_ne _ _ _ (by omega), modifyAt_get?_ne _ _ _ (by omega)]
    exact modifyAt_get?_eq s.units s.cursor u hu
  · intro v hv
    show (modifyAt _ (modifyAt _ (modifyAt _ s.units s.cursor) (s.cursor - 1)) (s.cursor + 1)).get? (s.cursor - 1)
        = some { v with ellipsisAfter := true }
    rw [modifyAt_get?_ne _ _ _ (by omega)]
    apply modifyAt_get?_eq
    rw [modifyAt_get?_ne _ _ _ (by omega)]
    exact hv
  · intro v hv
    show (modifyAt _ (modifyAt _ (modifyAt _ s.units s.cursor) (s.cursor - 1)) (s.cursor + 1)).get? (s.cursor + 1)
        = some { v with ellipsisBefore := true }
    apply modifyAt_get?_eq
    rw [modifyAt_get?_ne _ _ _ (by omega), modifyAt_get?_ne _ _ _ (by omega)]
    exact hv

def c1wState : DisplayState :=
  { initState with
    units := Textbox.segment "a b"
    cursor := 1
    timers := [⟨0, 100, false⟩] }

/-- C1 witness: the amended theorem applied to the concrete state reached
while revealing "a b" with an armed timer at the space. -/
theorem c1_page_break_tick_witness :
    ∃ s', fireTimer ⟨0, 100, false⟩ c1wState = Except.ok s'
      ∧ s'.units.get? 1 = some { mkUnit ' ' with visible := true }
      ∧ (∀ v, c1wState.units.get? 0 = some v →
          s'.units.get? 0 = some { v with ellipsisAfter := true })
      ∧ (∀ v, c1wState.units.get? 2 = some v →
          s'.units.get? 2 = some { v with ellipsisBefore := true })
      ∧ s'.timers = removeTimer c1wState.timers 0
      ∧ s'.continueHidden = false
      ∧ s'.cursor = 2 :=
  c1_page_break_tick ⟨0, 100, false⟩ c1wState (mkUnit ' ')
    (by decide) (by decide) (by decide) (by decide) (by decide)

def cursorOf (r : Except Unit DisplayState) : Option Nat :=
  match r with
  | Except.ok s => some s.cursor
  | Except.error _ => none

/-- C2 bug evaluation: a second `text` assignment does NOT cancel the interval
started by the first one — after `setText "ab"` immediately followed by
`setText "cd"`, two intervals are live, and one firing of each advances the
shared cursor twice (the whole of "cd" is revealed after one round of the two
racing timers: double reveal speed).  This refutes "starting a new reveal
cycle first cancels any previously started timer". -/
theorem c2_second_setText_leaves_two_timers :
    (attributeChangedCallback "cd" (attributeChangedCallback "ab" initState)).timers.length = 2
    ∧ cursorOf (runEvents initState [Ev.setT "ab", Ev.setT "cd", Ev.tick 0, Ev.tick 1]) = some 2
    ∧ visCount (runEvents initState [Ev.setT "ab", Ev.setT "cd", Ev.tick 0, Ev.tick 1]) = some 2 := by
  refine ⟨?_, ?_, ?_⟩ <;> decide

/-- C3 counterexample: for the input " a" the accessibility mirror receives
the raw value " a" (line 189 assigns `newValue`, not `newValue.trim()`), which
differs from the trimmed input "a" — refuting "the mirror's content equals the
entire trimmed input text". -/
theorem c3_mirror_is_untrimmed_cex :
    (attributeChangedCallback " a" initState).accessibleText = " a"
    ∧ ¬ ((attributeChangedCallback " a" initState).accessibleText
          = String.mk (trimChars (" a").data)) := by
  refine ⟨?_, ?_⟩ <;> decide

/-- C3 amended: each non-empty `setText` call writes the accessibility mirror
exactly once, synchronously at assignment time, and the mirror's content
equals the entire RAW (untrimmed) input; no timer tick and no continue action
ever writes the mirror, so its content is independent of reveal progress. -/
theorem c3_mirror_set_once (s : DisplayState) (t : String) (ht : t ≠ "") :
    (attributeChangedCallback t s).accessibleText = t
    ∧ (∀ (tm : TimerState) (s1 s2 : DisplayState),
        fireTimer tm s1 = Except.ok s2 → s2.accessibleText = s1.accessibleText)
    ∧ (∀ s1 : DisplayState, (continueHandler s1).accessibleText = s1.accessibleText) := by
  refine ⟨?_, ?_, ?_⟩
  · unfold attributeChangedCallback
    rw [if_neg ht]
    rfl
  · intro tm s1 s2 h
    unfold fireTimer at h
    split at h
    · cases h; rfl
    · dsimp only at h
      split at h
      · split at h
        · exact absurd h (by simp)
        · split at h
          · cases h; rfl
          · exact absurd h (by simp)
      · cases h; rfl
  · intro s1
    unfold continueHandler
    split <;> rfl

/-- C3 witness: the amended theorem applied to the input "abc". -/
theorem c3_mirror_set_once_witness :
    (attributeChangedCallback "abc" initState).accessibleText = "abc" :=
  (c3_mirror_set_once initState "abc" (by decide)).1

/-- C4: segmentation trims leading and trailing whitespace (the input splits
as whitespace-run ++ trimmed ++ whitespace-run), produces exactly one unit per
remaining character in order (the units' characters are exactly the trimmed
character list, so internal whitespace is preserved as ordinary units), marks
every unit initially not visible (and undecorated), and yields an empty
sequence exactly when the trimmed input is empty. -/
theorem c4_segmentation (rawText : String) :
    charsOf (Textbox.segment rawText) = trimChars rawText.data
    ∧ (∃ w1 w2, (∀ c ∈ w1, c.isWhitespace = true) ∧ (∀ c ∈ w2, c.isWhitespace = true)
        ∧ rawText.data = w1 ++ trimChars rawText.data ++ w2)
    ∧ (∀ u ∈ Textbox.segment rawText,
        u.visible = false ∧ u.hiddenAttr = false
          ∧ u.ellipsisBefore = false ∧ u.ellipsisAfter = false)
    ∧ (Textbox.segment rawText = [] ↔ trimChars rawText.data = []) := by
  refine ⟨charsOf_segment rawText, trim_decomp rawText.data, ?_, ?_⟩
  · intro u hu
    obtain ⟨c, _, hc⟩ := List.mem_map.mp hu
    rw [← hc]
    exact ⟨rfl, rfl, rfl, rfl⟩
  · unfold Textbox.segment
    exact List.map_eq_nil

/-- C4 witness: the segmentation theorem applied to " a b ", including the
initially-not-visible conjunct discharged at the internal space unit. -/
theorem c4_segmentation_witness :
    charsOf (Textbox.segment " a b ") = trimChars (" a b ").data
    ∧ (mkUnit ' ').visible = false :=
  ⟨(c4_segmentation " a b ").1,
    ((c4_segmentation " a b ").2.2.1 (mkUnit ' ') (by decide)).1⟩

/-- C5 counterexample: in a break state whose whitespace unit is the LAST
unit (no following unit), the break handler does not skip the ellipsis-before
decoration and does not treat the situation as exhaustion — the unguarded
`nextElementSibling` access fails (thrown `TypeError`, modelled as
`Except.error`), refuting "the break handling is guarded ... no failure
occurs".  No input text can reach such a state (see the C10 theorem), so the
claim's scenario only arises on crafted states. -/
theorem c5_break_at_last_unit_fails_cex :
    fireTimer ⟨0, 1, true⟩
      { initState with
        units := [mkUnit 'a', mkUnit ' ']
        cursor := 1
        timers := [⟨0, 1, true⟩] }
      = Except.error () := by rfl

/-- C5 amended: the break handling is NOT guarded — whenever a page break
resolves on a whitespace unit that is the very first unit (no preceding
sibling) or the very last unit (no following sibling), the handler fails on
the unguarded sibling access instead of skipping the decoration; such states
are unreachable from any input because segmentation trims boundary
whitespace (C10). -/
theorem c5_unguarded_break_at_edge (t : TimerState) (s : DisplayState) (u : DisplayUnit)
    (hu : s.units.get? s.cursor = some u)
    (harm : (t.armed || decide (t.index % 100 = 0)) = true)
    (hws : isWsUnit u = true)
    (hedge : s.cursor = 0 ∨ s.cursor + 1 = s.units.length) :
    fireTimer t s = Except.error () := by
  have hcond : ((t.armed || decide (t.index % 100 = 0)) && isWsUnit u) = true := by
    rw [harm, hws]; rfl
  unfold fireTimer
  rw [hu]
  dsimp only
  rw [if_pos hcond]
  by_cases h0 : s.cursor = 0
  · rw [if_pos h0]
  · rw [if_neg h0]
    rcases hedge with h | h
    · exact absurd h h0
    · rw [if_neg (by omega)]

/-- C5 witness: the amended theorem applied to a crafted break state whose
whitespace unit is the very first unit. -/
theorem c5_unguarded_break_at_edge_witness :
    fireTimer ⟨0, 1, true⟩
      { initState with
        units := [mkUnit ' ', mkUnit 'b']
        cursor := 0
        timers := [⟨0, 1, true⟩] }
      = Except.error () :=
  c5_unguarded_break_at_edge ⟨0, 1, true⟩ _ (mkUnit ' ')
    (by decide) (by decide) (by decide) (Or.inl rfl)

/-- C6: every reveal cycle starts its per-page running count at 1 with
scanning disarmed (`showLetters` registers the fresh interval with
`index = 1`, `lookForWhitespaceChar = false`, and the continue action starts
such a cycle, so after every continue the count is reset to 1 and scanning is
disarmed); on a tick that reveals a unit the scanning flag becomes
`armed || (index % 100 == 0)` and the count increments, so from the disarmed
state scanning becomes armed exactly when the running count is an exact
multiple of 100. -/
theorem c6_page_counter (s : DisplayState) (t : TimerState) (u : DisplayUnit) :
    ((showLetters s).timers.getLast? = some ⟨s.nextTimerId, 1, false⟩)
    ∧ (s.dataComplete = false →
        (continueHandler s).timers.getLast? = some ⟨s.nextTimerId, 1, false⟩)
    ∧ (s.units.get? s.cursor = some u →
        ((t.armed || decide (t.index % 100 = 0)) && isWsUnit u) = false →
        fireTimer t s = Except.ok
          { s with
            cursor := s.cursor + 1
            units := modifyAt (fun v => { v with visible := true }) s.units s.cursor
            timers := updateTimer s.timers t.id (t.index + 1)
                        (t.armed || decide (t.index % 100 = 0)) })
    ∧ (t.armed = false →
        ((t.armed || decide (t.index % 100 = 0)) = true ↔ t.index % 100 = 0)) := by
  refine ⟨?_, ?_, ?_, ?_⟩
  · unfold showLetters
    exact List.getLast?_concat _
  · intro hc
    unfold continueHandler
    rw [if_neg (by rw [hc]; exact Bool.false_ne_true)]
    unfold showLetters
    exact List.getLast?_concat _
  · intro hu hb
    unfold fireTimer
    rw [hu]
    dsimp only
    rw [if_neg (by rw [hb]; exact Bool.false_ne_true)]
  · intro ha
    rw [ha, Bool.false_or]
    exact decide_eq_true_iff

def c6wState : DisplayState := attributeChangedCallback "ab" initState

/-- C6 witness: the counter/arming theorem applied to the state reached by
`setText "ab"` and its single live timer. -/
theorem c6_page_counter_witness :
    ((showLetters c6wState).timers.getLast? = some ⟨1, 1, false⟩)
    ∧ ((continueHandler c6wState).timers.getLast? = some ⟨1, 1, false⟩)
    ∧ (fireTimer ⟨0, 1, false⟩ c6wState = Except.ok
        { c6wState with
          cursor := 1
          units := modifyAt (fun v => { v with visible := true }) c6wState.units 0
          timers := updateTimer c6wState.timers 0 2 false })
    ∧ (((false : Bool) || decide ((1 : Nat) % 100 = 0)) = true ↔ (1 : Nat) % 100 = 0) := by
  have h := c6_page_counter c6wState ⟨0, 1, false⟩ (mkUnit 'a')
  exact ⟨h.1, h.2.1 (by decide), h.2.2.1 (by decide) (by decide), h.2.2.2 rfl⟩

/-- C7 counterexample: for the input "abc", after exactly 3 timer ticks all
3 units are visible but the completion marker is NOT yet set and the label is
still the in-progress one — exhaustion is only detected by the next tick's
`letter.done`, refuting "after exactly 3 timer ticks the completion marker is
set". -/
theorem c7_three_ticks_not_complete_cex :
    completeOf (runTicks (attributeChangedCallback "abc" initState) 3) = some false
    ∧ visCount (runTicks (attributeChangedCallback "abc" initState) 3) = some 3
    ∧ labelOf (runTicks (attributeChangedCallback "abc" initState) 3) = some "Continue…" := by
  refine ⟨?_, ?_, ?_⟩ <;> decide

/-- C7 amended: for the input "abc", after exactly 4 timer ticks (one per
character plus the exhaustion tick) the completion marker is set, the
affordance label is the terminal "Done" label, exactly 3 units are visible,
the accessibility text equals "abc", and the timer has stopped. -/
theorem c7_four_ticks_complete :
    completeOf (runTicks (attributeChangedCallback "abc" initState) 4) = some true
    ∧ labelOf (runTicks (attributeChangedCallback "abc" initState) 4) = some "Done"
    ∧ visCount (runTicks (attributeChangedCallback "abc" initState) 4) = some 3
    ∧ accTextOf (runTicks (attributeChangedCallback "abc" initState) 4) = some "abc"
    ∧ timersCount (runTicks (attributeChangedCallback "abc" initState) 4) = some 0 := by
  refine ⟨?_, ?_, ?_, ?_, ?_⟩ <;> decide

/-- C8: an empty (falsy) `text` assignment is a silent no-op — the state is
returned completely unchanged, so no unit becomes visible, no timer is
started, the accessibility mirror keeps its prior content, and the display
region keeps whatever hidden state it had (in particular it stays hidden when
it was hidden). -/
theorem c8_empty_setText_noop (s : DisplayState) :
    attributeChangedCallback "" s = s := by
  unfold attributeChangedCallback
  rw [if_pos rfl]

/-- C9: the user action dismisses (hides the button and the display region
and clears the completion marker, touching nothing else) exactly when the
completion marker is set; without the marker it leaves the marker unchanged
(still clear) and performs the continue behaviour: every span carrying the
`visible` class gets its `hidden` property set, the affordance is hidden, and
a new reveal cycle is started from the current cursor position (the cursor is
not reset and the accessibility mirror is untouched). -/
theorem c9_user_action (s : DisplayState) :
    (s.dataComplete = true →
      continueHandler s =
        { s with continueHidden := true, textBoxHidden := true, dataComplete := false })
    ∧ (s.dataComplete = false →
        (continueHandler s).dataComplete = false
        ∧ (continueHandler s).cursor = s.cursor
        ∧ (continueHandler s).units = hideVisible s.units
        ∧ (continueHandler s).continueHidden = true
        ∧ (continueHandler s).timers = s.timers ++ [⟨s.nextTimerId, 1, false⟩]
        ∧ (continueHandler s).accessibleText = s.accessibleText) := by
  constructor
  · intro hc
    unfold continueHandler
    rw [if_pos (by rw [hc])]
  · intro hc
    unfold continueHandler
    rw [if_neg (by rw [hc]; exact Bool.false_ne_true)]
    exact ⟨hc, rfl, rfl, rfl, rfl, rfl⟩

/-- C9 witness: the user-action theorem applied to a completed state (dismiss
branch) and to the state reached by `setText "ab"` (continue branch). -/
theorem c9_user_action_witness :
    (continueHandler { initState with dataComplete := true } =
      { initState with continueHidden := true, textBoxHidden := true, dataComplete := false })
    ∧ (continueHandler (attributeChangedCallback "ab" initState)).cursor = 0 := by
  constructor
  · have h := (c9_user_action { initState with dataComplete := true }).1 rfl
    exact h
  · exact ((c9_user_action (attributeChangedCallback "ab" initState)).2 rfl).2.1

/-- C10: from the initial state, no sequence of `text` assignments, timer
ticks (of any live interval) and button clicks can ever make the break
handler dereference a missing sibling — every run ends in a normal state,
never in the `TypeError` modelled by `Except.error`.  The invariant is that
every whitespace-only unit has both a preceding and a following unit, which
holds because segmentation trims leading and trailing whitespace, and a page
break only resolves on a whitespace-only unit. -/
theorem c10_no_missing_neighbor (evs : List Ev) :
    ∃ s', runEvents initState evs = Except.ok s' := by
  have hinit : wsSafeC (charsOf initState.units) := by
    intro i c h
    simp [initState, charsOf] at h
  obtain ⟨s', h, _⟩ := runEvents_ok evs initState hinit
  exact ⟨s', h⟩

end Textbox
